import Mathlib

/-!
Shallow embedding of the Pwanda77/Finder repository (files
`cnfans_webapp.py` and `Price.py`), a Streamlit web app that scrapes
product listings from cnfans.com, parses prices, converts currencies,
and scans product pages for Google-Sheets links.

Strings are modelled as Lean `String` / `List Char`; Python floats are
modelled as exact rationals `ℚ`; Python's `None` becomes `Option`.
Character classes (`\d`, `\s`, `str.lower`) are modelled at ASCII
precision, which covers every literal the program matches against.
BeautifulSoup documents are modelled as records of the query results the
program actually asks for (each `find`/`find_all` call becomes a field).
-/

section FinderModel

/- Concrete evaluation of the model (examples and witnesses) needs the
kernel-reducible bodies of the Batteries rational operations. -/
attribute [local semireducible] Rat.add Rat.mul Rat.sub Rat.inv Rat.ofScientific

/-- ASCII lowercasing of one character, modelling Python's `str.lower()`
on the ASCII range (the only range the program's patterns use). -/
def lowerChar (c : Char) : Char :=
  match c with
  | 'A' => 'a' | 'B' => 'b' | 'C' => 'c' | 'D' => 'd' | 'E' => 'e'
  | 'F' => 'f' | 'G' => 'g' | 'H' => 'h' | 'I' => 'i' | 'J' => 'j'
  | 'K' => 'k' | 'L' => 'l' | 'M' => 'm' | 'N' => 'n' | 'O' => 'o'
  | 'P' => 'p' | 'Q' => 'q' | 'R' => 'r' | 'S' => 's' | 'T' => 't'
  | 'U' => 'u' | 'V' => 'v' | 'W' => 'w' | 'X' => 'x' | 'Y' => 'y'
  | 'Z' => 'z'
  | c => c

/-- Models `href.lower()` viewed on the character list. -/
def lowerList (cs : List Char) : List Char := cs.map lowerChar

/-- Boolean test: `isPrefixL pat l` holds when `pat` is a prefix of `l`. -/
def isPrefixL : List Char → List Char → Bool
  | [], _ => true
  | _ :: _, [] => false
  | p :: ps, c :: cs => p = c && isPrefixL ps cs

/-- Python's substring test `pat in l` for strings, on character lists. -/
def containsSub (pat : List Char) : List Char → Bool
  | [] => pat.isEmpty
  | c :: cs => isPrefixL pat (c :: cs) || containsSub pat cs

/-- One character of the regex class `[\d.]` from
`re.findall(r"[\d.]+", price_text)` (ASCII digits and the dot). -/
def isNumChar (c : Char) : Bool := c.isDigit || c = '.'

/-- Models `price_text.replace("¥", "").replace(",", "")`
(cnfans_webapp.py line 133): both replacements delete every occurrence
of a single character, so together they filter those characters out. -/
def stripYenComma (s : String) : String :=
  String.mk (s.data.filter (fun c => ¬ (c = '¥' ∨ c = ',')))

/-- First match of `re.findall(r"[\d.]+", ...)`, i.e. the first maximal
run of digit-or-dot characters (`price_numbers[0]`, line 134/137).
`none` models an empty match list (line 135). -/
def firstNumRun : List Char → Option (List Char)
  | [] => none
  | c :: cs => if isNumChar c then some (c :: cs.takeWhile isNumChar) else firstNumRun cs

/-- Value of a list of ASCII digits read in base 10. -/
def natOfDigits (cs : List Char) : Nat := cs.foldl (fun a c => a * 10 + (c.toNat - 48)) 0

/-- Rational value of a digits-and-one-dot run: integer part plus
fractional part scaled down by the fraction's length (so `1234.56`
denotes `123456 / 100`). -/
def ratOfRun (cs : List Char) : ℚ :=
  let ip := cs.takeWhile (fun c => c ≠ '.')
  let fp := (cs.dropWhile (fun c => c ≠ '.')).drop 1
  Rat.divInt (Int.ofNat (natOfDigits ip * 10 ^ fp.length + natOfDigits fp))
    (Int.ofNat (10 ^ fp.length))

/-- Python's `float(s)` restricted to strings drawn from `[\d.]+`:
such a string converts successfully iff it has at least one digit and at
most one dot; otherwise `float` raises (modelled as `none`, which the
caller's `except` clause turns into a skip). -/
def pyFloatOfRun (cs : List Char) : Option ℚ :=
  if cs.count '.' ≤ 1 ∧ cs.any Char.isDigit then some (ratOfRun cs) else none

/-- The whole price-text-to-number path of cnfans_webapp.py lines
133–137: strip `¥` and `,`, take the first `[\d.]+` run, convert with
`float`. `none` means the candidate is skipped (`continue`, line 136,
or the exception handler at line 174). -/
def parsePriceText (s : String) : Option ℚ :=
  match firstNumRun (stripYenComma s).data with
  | none => none
  | some run => pyFloatOfRun run

/-- Python's `round(x, 2)` modelled as exact rational rounding to two
decimal places with ties to even (the float's binary representation is
abstracted away). -/
def round2 (x : ℚ) : ℚ :=
  let y := x * 100
  let n := y.floor
  let f := y - Rat.divInt n 1
  let r : ℤ :=
    if f < Rat.divInt 1 2 then n
    else if Rat.divInt 1 2 < f then n + 1
    else if n % 2 = 0 then n else n + 1
  Rat.divInt r 100

/-- The constant `BASE_URL` (cnfans_webapp.py line 8). -/
def BASE_URL : String := "https://cnfans.com"

/-- Python's `s.startswith(pre)`: `pre` is a prefix of `s`. -/
def pyStartsWith (s pre : String) : Bool := isPrefixL pre.data s.data

/-- Link resolution of cnfans_webapp.py lines 147–148 (and 154–155 for
images): a root-relative href gets the base origin prefixed, anything
else is returned unchanged.  The call sites pass `BASE_URL` for the
base. -/
def resolveLink (href base : String) : String :=
  if pyStartsWith href "/" then base ++ href else href

/-- Characters excluded by the regex class `[^\s'\"]` in
`find_spreadsheet_links` (cnfans_webapp.py line 60): ASCII whitespace
(`\s` at ASCII precision), the single quote and the double quote. -/
def sheetStop (c : Char) : Bool :=
  c = ' ' || c = '\t' || c = '\n' || c = '\r' || c = '\x0b' || c = '\x0c' ||
    c.toNat = 39 || c = '"'

/-- The host pattern `"docs.google.com/spreadsheets"` tested against
`href.lower()` (line 55). -/
def sheetHostPat : List Char := "docs.google.com/spreadsheets".data

/-- The literal part of the regex at line 60, with the optional `s` of
`https?` present. -/
def sheetUrlPatHttps : List Char := "https://docs.google.com/spreadsheets/".data

/-- The literal part of the regex at line 60, with the optional `s` of
`https?` absent. -/
def sheetUrlPatHttp : List Char := "http://docs.google.com/spreadsheets/".data

/-- Case-insensitive literal match at the head of the input (the
`re.IGNORECASE` flag of line 60, with a lowercase pattern): on success
returns the consumed original characters and the remainder. -/
def stripPrefixCI : List Char → List Char → Option (List Char × List Char)
  | [], cs => some ([], cs)
  | _ :: _, [] => none
  | p :: ps, c :: cs =>
    if lowerChar c = p then
      match stripPrefixCI ps cs with
      | some (pre, rest) => some (c :: pre, rest)
      | none => none
    else none

/-- The trailing `[^\s'\"]+` of the regex at line 60: greedily extend a
matched literal prefix `pre` with at least one non-stop character. -/
def extendRun (pre rest : List Char) : Option (List Char × List Char) :=
  let run := rest.takeWhile (fun c => !sheetStop c)
  if run = [] then none else some (pre ++ run, rest.drop run.length)

/-- One attempt of the regex `https?://docs\.google\.com/spreadsheets/[^\s'\"]+`
(case-insensitive) at the current position: `https` is tried before
`http` (greedy `s?`), then the run must be non-empty.  Returns the
matched text (original case) and the remaining input. -/
def matchSheetAt (cs : List Char) : Option (List Char × List Char) :=
  match stripPrefixCI sheetUrlPatHttps cs with
  | some (pre, rest) => extendRun pre rest
  | none =>
    match stripPrefixCI sheetUrlPatHttp cs with
    | some (pre, rest) => extendRun pre rest
    | none => none

/-- Scanner of `re.findall` (line 60): try the pattern at each position,
on failure advance one character, on success continue after the match
(non-overlapping matches).  The fuel argument only bounds the number of
steps; each step consumes at least one character, so fuel equal to the
input length (see `findSheetUrls`) never runs out. -/
def findSheetUrlsAux : Nat → List Char → List (List Char)
  | 0, _ => []
  | _, [] => []
  | fuel + 1, c :: cs =>
    match matchSheetAt (c :: cs) with
    | some (m, rest) => m :: findSheetUrlsAux fuel rest
    | none => findSheetUrlsAux fuel cs

/-- Models `re.findall(r"https?://docs\.google\.com/spreadsheets/[^\s'\"]+", text, re.IGNORECASE)`
(cnfans_webapp.py line 60). -/
def findSheetUrls (cs : List Char) : List (List Char) :=
  findSheetUrlsAux cs.length cs

/-- Models `url.split("?")[0]` (lines 56 and 62): everything before the first
question mark. -/
def stripQuery (cs : List Char) : List Char := cs.takeWhile (fun c => c ≠ '?')

/-- A product detail page as consumed by `find_spreadsheet_links`:
the hrefs of all `<a href=...>` tags (`soup.find_all("a", href=True)`,
line 53) and the full visible text (`soup.get_text()`, line 59). -/
structure PageDoc where
  anchorHrefs : List String
  text : String

/-- Models `find_spreadsheet_links` (cnfans_webapp.py lines 45–64): collect into
a set the query-stripped href of every anchor whose lowercased href
contains the host pattern, then the query-stripped text of every regex
match over the page text, and return the set as a list.  The Python set
is modelled as a duplicate-free list built by `List.insert` (the set's
iteration order is unspecified in Python; membership and multiplicity
are what the model preserves). -/
def findSpreadsheetLinks (doc : PageDoc) : List String :=
  let s1 : List String :=
    doc.anchorHrefs.foldl
      (fun acc href =>
        if containsSub sheetHostPat (lowerList href.data) then
          List.insert (String.mk (stripQuery href.data)) acc
        else acc)
      []
  (findSheetUrls doc.text.data).foldl
    (fun acc m => List.insert (String.mk (stripQuery m)) acc) s1

/-- The live-or-fallback exchange rates fetched at cnfans_webapp.py
lines 10–23 (`get_exchange_rates`): `rates.get("EUR", None)` /
`rates.get("USD", None)` on success, both `None` on transport or parse
failure.  `none` models Python's `None`. -/
structure RatesOut where
  eur : Option ℚ
  usd : Option ℚ

/-- The conditional expression `exchange_rates["X"] if exchange_rates["X"]
else fallback` (lines 69–70).  Python truthiness: `None` and `0.0` are
falsy, every other float is truthy. -/
def effRate (r : Option ℚ) (fallback : ℚ) : ℚ :=
  match r with
  | none => fallback
  | some x => if x = 0 then fallback else x

/-- The static fallback factor `0.13` for CNY→EUR (line 69). -/
def CNY_EUR_FALLBACK : ℚ := Rat.divInt 13 100

/-- The static fallback factor `0.14` for CNY→USD (line 70). -/
def CNY_USD_FALLBACK : ℚ := Rat.divInt 14 100

/-- One candidate product element, modelled as the results of the
BeautifulSoup queries the extractor performs on it (lines 123–153).
For tag queries whose text is used, the field holds
`get_text(strip=True)` of the first matching tag, or `none` when no
(truthy) tag matches; `aHref` holds the `href` of the first
`<a href=...>`; `imgSrc` is `some src?` when an `<img>` exists, where
`src?` is its `src` attribute if present. -/
structure Candidate where
  aProductTitleText : Option String
  h3Text : Option String
  aText : Option String
  spanPriceText : Option String
  divPriceText : Option String
  emPriceText : Option String
  spanText : Option String
  aHref : Option String
  imgSrc : Option (Option String)
deriving DecidableEq

/-- The chain `product.find("a", class_="product-title") or product.find("h3") or
product.find("a")` followed by `get_text(strip=True)` (line 123). -/
def titleChain (c : Candidate) : Option String :=
  match c.aProductTitleText with
  | some t => some t
  | none =>
    match c.h3Text with
    | some t => some t
    | none => c.aText

/-- The chain `product.find("span", class_="price") or product.find("div",
class_="price") or product.find("em", class_="price") or
product.find("span")` followed by `get_text(strip=True)` (line 129). -/
def priceChain (c : Candidate) : Option String :=
  match c.spanPriceText with
  | some t => some t
  | none =>
    match c.divPriceText with
    | some t => some t
    | none =>
      match c.emPriceText with
      | some t => some t
      | none => c.spanText

/-- The candidate's base price as the extractor computes it
(lines 129–137): first matching price tag, then `parsePriceText`. -/
def parsedPrice (c : Candidate) : Option ℚ :=
  match priceChain c with
  | none => none
  | some s => parsePriceText s

/-- The price-ceiling test `max_price is not None and price_cny >
max_price` (line 139): `true` means the candidate is dropped. -/
def priceOverCeiling (maxPrice : Option ℚ) (p : ℚ) : Bool :=
  match maxPrice with
  | some m => decide (m < p)
  | none => false

/-- One returned product record (the dict appended at lines 164–172). -/
structure Record where
  title : String
  priceCny : ℚ
  priceEur : ℚ
  priceUsd : ℚ
  link : String
  imgUrl : Option String
  spreadsheetLinks : List String
deriving DecidableEq

/-- The Streamlit messages the program emits on its non-result paths:
`st.error` at line 92, `st.warning` at line 112, `st.warning` inside
`fetch_product_page` at line 42, `st.write` at line 175. -/
inductive Msg where
  | networkError
  | selectorWarning
  | productFetchWarning
  | parseSkip
deriving DecidableEq

/-- The listing page, modelled as the `find_all` results of the four
selector strategies of lines 97–102, in priority order:
`("li", "product-item")`, `("div", "product-list-item")`,
`("div", "search-item")`, `("div", "item")`. -/
structure ListingDoc where
  liProductItem : List Candidate
  divProductListItem : List Candidate
  divSearchItem : List Candidate
  divItem : List Candidate

/-- The effectful environment of one `search_cnfans` call: the outcome
of the listing fetch (lines 88–93; `none` is a transport error or
non-2xx status), the outcome of each product-page fetch
(`fetch_product_page`, lines 26–43), and the exchange-rate result
(lines 10–23, consumed at line 68). -/
structure Env where
  fetchListing : Option ListingDoc
  fetchProduct : String → Option PageDoc
  rates : RatesOut

/-- One search query: keyword, optional price ceiling, result cap
(the parameters of `search_cnfans`, line 67). -/
structure Query where
  keyword : String
  maxPrice : Option ℚ
  maxResults : Nat

/-- Result of extracting one candidate (loop body, lines 122–176):
the record if the candidate was accepted, the messages emitted, and the
number of product-page fetches performed. -/
structure ExtractOut where
  result : Option Record
  msgs : List Msg
  fetches : Nat
deriving DecidableEq

/-- The per-candidate body of the extraction loop (lines 122–173):
title fallback chain (skip when empty), price-tag fallback chain (skip
when empty), first numeric run (skip when none), `float` conversion
(exception caught at line 174, with a message), price-ceiling filter,
link requirement (skip when absent), link and image resolution against
`BASE_URL`, product-page fetch and spreadsheet scan, currency
conversion. -/
def extractStep (env : Env) (maxPrice : Option ℚ) (effE effU : ℚ) (c : Candidate) :
    ExtractOut :=
  match titleChain c with
  | none => ⟨none, [], 0⟩
  | some title =>
    match priceChain c with
    | none => ⟨none, [], 0⟩
    | some ptext =>
      match firstNumRun (stripYenComma ptext).data with
      | none => ⟨none, [], 0⟩
      | some run =>
        match pyFloatOfRun run with
        | none => ⟨none, [Msg.parseSkip], 0⟩
        | some priceCny =>
          if priceOverCeiling maxPrice priceCny then ⟨none, [], 0⟩
          else
            match c.aHref with
            | none => ⟨none, [], 0⟩
            | some href =>
              let link := resolveLink href BASE_URL
              let imgUrl : Option String :=
                match c.imgSrc with
                | some (some src) => some (resolveLink src BASE_URL)
                | _ => none
              match env.fetchProduct link with
              | none =>
                ⟨some ⟨title, priceCny, round2 (priceCny * effE),
                    round2 (priceCny * effU), link, imgUrl, []⟩,
                  [Msg.productFetchWarning], 1⟩
              | some page =>
                ⟨some ⟨title, priceCny, round2 (priceCny * effE),
                    round2 (priceCny * effU), link, imgUrl,
                    findSpreadsheetLinks page⟩,
                  [], 1⟩

/-- Aggregate outcome of the extraction loop: the accepted records in
discovery order, the messages emitted, the number of candidates whose
body was entered, and the number of product-page fetches. -/
structure LoopOut where
  records : List Record
  msgs : List Msg
  extracted : Nat
  fetches : Nat
deriving DecidableEq

/-- The extraction loop of lines 115–176: `count` starts at 0, the loop
breaks as soon as `count >= max_results` (line 119), a rejected
candidate is skipped (`continue`), an accepted one is appended and
increments `count`. -/
def searchLoop (env : Env) (maxPrice : Option ℚ) (maxResults : Nat)
    (effE effU : ℚ) : Nat → List Candidate → LoopOut
  | _, [] => ⟨[], [], 0, 0⟩
  | count, c :: cs =>
    if maxResults ≤ count then ⟨[], [], 0, 0⟩
    else
      match (extractStep env maxPrice effE effU c).result with
      | none =>
        ⟨(searchLoop env maxPrice maxResults effE effU count cs).records,
          (extractStep env maxPrice effE effU c).msgs ++
            (searchLoop env maxPrice maxResults effE effU count cs).msgs,
          (searchLoop env maxPrice maxResults effE effU count cs).extracted + 1,
          (extractStep env maxPrice effE effU c).fetches +
            (searchLoop env maxPrice maxResults effE effU count cs).fetches⟩
      | some record =>
        ⟨record :: (searchLoop env maxPrice maxResults effE effU (count + 1) cs).records,
          (extractStep env maxPrice effE effU c).msgs ++
            (searchLoop env maxPrice maxResults effE effU (count + 1) cs).msgs,
          (searchLoop env maxPrice maxResults effE effU (count + 1) cs).extracted + 1,
          (extractStep env maxPrice effE effU c).fetches +
            (searchLoop env maxPrice maxResults effE effU (count + 1) cs).fetches⟩

/-- The per-strategy results in priority order (lines 97–102). -/
def strategyResults (doc : ListingDoc) : List (List Candidate) :=
  [doc.liProductItem, doc.divProductListItem, doc.divSearchItem, doc.divItem]

/-- First non-empty strategy result wins (`if found: products = found;
break`, lines 105–109); `[]` when every strategy is empty. -/
def firstNonEmpty : List (List Candidate) → List Candidate
  | [] => []
  | l :: ls => if l.isEmpty then firstNonEmpty ls else l

/-- The card locator: the selector loop at lines 104–109. -/
def locateProducts (doc : ListingDoc) : List Candidate :=
  firstNonEmpty (strategyResults doc)

/-- The value returned by `search_cnfans` together with the Streamlit
messages it displayed.  The Python function's return value is only the
`records` list; `msgs` models the UI side channel. -/
structure SearchOut where
  records : List Record
  msgs : List Msg
deriving DecidableEq

/-- Models `search_cnfans` (cnfans_webapp.py lines 66–178): compute effective
rates (static fallback on falsy live rates), fetch the listing page
(`st.error` and `return []` on failure), locate product cards
(`st.warning` and `return []` when every selector is empty), then run
the extraction loop and return its records. -/
def searchCnfans (env : Env) (q : Query) : SearchOut :=
  let effE := effRate env.rates.eur CNY_EUR_FALLBACK
  let effU := effRate env.rates.usd CNY_USD_FALLBACK
  match env.fetchListing with
  | none => ⟨[], [Msg.networkError]⟩
  | some doc =>
    let products := locateProducts doc
    if products.isEmpty then ⟨[], [Msg.selectorWarning]⟩
    else
      let r := searchLoop env q.maxPrice q.maxResults effE effU 0 products
      ⟨r.records, r.msgs⟩

/-! ## Concrete inputs used by examples, witnesses and counterexamples -/

/-- A product page holding the same spreadsheet URL both in an anchor
(with query parameters) and in the body text. -/
def pageW : PageDoc :=
  ⟨["https://docs.google.com/spreadsheets/d/abc?usp=1", "/other"],
   "see https://docs.google.com/spreadsheets/d/abc?x=2 ok"⟩

/-- A fully extractable candidate (title, price `¥1,234.56`, link, image). -/
def candW : Candidate :=
  ⟨some "Shirt", none, none, some "¥1,234.56", none, none, none,
    some "/p/123", some (some "/img/1.jpg")⟩

/-- A candidate whose price text carries no numeric substring. -/
def candNA : Candidate :=
  ⟨some "Mystery", none, none, some "N/A", none, none, none,
    some "/p/777", none⟩

/-- A candidate with no `<a href=...>` tag. -/
def candNoLink : Candidate :=
  ⟨some "NoLink", none, none, some "¥9.99", none, none, none, none, none⟩

/-- A listing document matched only by the second selector strategy. -/
def docW : ListingDoc := ⟨[], [candW, candNA, candW, candW], [], []⟩

/-- A listing document on which every selector strategy is empty. -/
def docEmpty : ListingDoc := ⟨[], [], [], []⟩

/-- Environment: listing fetch succeeds with `docW`, every product page
fetch returns `pageW`, no live rates. -/
def envW : Env := ⟨some docW, fun _ => some pageW, ⟨none, none⟩⟩

/-- Environment whose listing fetch fails. -/
def envFail : Env := ⟨none, fun _ => none, ⟨none, none⟩⟩

/-- Environment whose listing fetch succeeds but matches no listings. -/
def envEmpty : Env := ⟨some docEmpty, fun _ => none, ⟨none, none⟩⟩

/-- Query used by witnesses: keyword "jersey", no ceiling, cap 2. -/
def qW : Query := ⟨"jersey", none, 2⟩

/-- Query with the price ceiling set exactly at `candW`'s price. -/
def qW4 : Query := ⟨"jersey", some (Rat.divInt 123456 100), 5⟩

/-- An anchor href whose host pattern appears only in upper case. -/
def hrefU : String := "HTTPS://DOCS.GOOGLE.COM/SPREADSHEETS/D/ABC?X=1"

/-- A product page whose spreadsheet URL appears only in upper case, in
both an anchor and the body text. -/
def pageUpper : PageDoc :=
  ⟨[hrefU], "go HTTPS://DOCS.GOOGLE.COM/SPREADSHEETS/D/ABC?Q=2 end"⟩

/-! ## Helper lemmas about the extraction loop -/

theorem searchLoop_break (env : Env) (mp : Option ℚ) (N : Nat) (eE eU : ℚ)
    (count : Nat) (cs : List Candidate) (h : N ≤ count) :
    searchLoop env mp N eE eU count cs = ⟨[], [], 0, 0⟩ := by
  cases cs with
  | nil => rfl
  | cons c cs => simp [searchLoop, h]

theorem searchLoop_length_le (env : Env) (mp : Option ℚ) (N : Nat) (eE eU : ℚ) :
    ∀ (cs : List Candidate) (count : Nat),
      (searchLoop env mp N eE eU count cs).records.length ≤ N - count := by
  intro cs
  induction cs with
  | nil => intro count; simp [searchLoop]
  | cons c cs ih =>
    intro count
    by_cases h : N ≤ count
    · simp [searchLoop, h]
    · rw [searchLoop, if_neg h]
      cases he : (extractStep env mp eE eU c).result with
      | none => simpa using ih count
      | some r =>
        have h1 := ih (count + 1)
        simp only [List.length_cons]
        omega

theorem searchLoop_skip (env : Env) (mp : Option ℚ) (N : Nat) (eE eU : ℚ)
    (c : Candidate) (cs : List Candidate) (count : Nat)
    (h : (extractStep env mp eE eU c).result = none) :
    (searchLoop env mp N eE eU count (c :: cs)).records =
      (searchLoop env mp N eE eU count cs).records := by
  by_cases hb : N ≤ count
  · rw [searchLoop_break env mp N eE eU count (c :: cs) hb,
      searchLoop_break env mp N eE eU count cs hb]
  · rw [searchLoop, if_neg hb, h]

theorem searchLoop_append_full (env : Env) (mp : Option ℚ) (N : Nat) (eE eU : ℚ) :
    ∀ (cs : List Candidate) (count : Nat) (extra : List Candidate),
      N ≤ count + (searchLoop env mp N eE eU count cs).records.length →
      searchLoop env mp N eE eU count (cs ++ extra) =
        searchLoop env mp N eE eU count cs := by
  intro cs
  induction cs with
  | nil =>
    intro count extra h
    simp only [searchLoop, List.length_nil, Nat.add_zero] at h
    rw [List.nil_append, searchLoop_break env mp N eE eU count extra h]
    rfl
  | cons c cs ih =>
    intro count extra h
    by_cases hb : N ≤ count
    · rw [List.cons_append, searchLoop_break env mp N eE eU count _ hb,
        searchLoop_break env mp N eE eU count _ hb]
    · rw [searchLoop, if_neg hb] at h ⊢
      rw [List.cons_append, searchLoop, if_neg hb]
      cases he : (extractStep env mp eE eU c).result with
      | none =>
        rw [he] at h
        dsimp only at h ⊢
        rw [ih count extra h]
      | some r =>
        rw [he] at h
        dsimp only at h ⊢
        have hlen : N ≤ count + 1 +
            (searchLoop env mp N eE eU (count + 1) cs).records.length := by
          simp only [List.length_cons] at h
          omega
        rw [ih (count + 1) extra hlen]

theorem searchLoop_mem (env : Env) (mp : Option ℚ) (N : Nat) (eE eU : ℚ)
    (P : Record → Prop)
    (hP : ∀ c r, (extractStep env mp eE eU c).result = some r → P r) :
    ∀ (cs : List Candidate) (count : Nat) (r : Record),
      r ∈ (searchLoop env mp N eE eU count cs).records → P r := by
  intro cs
  induction cs with
  | nil => intro count r hr; simp [searchLoop] at hr
  | cons c cs ih =>
    intro count r hr
    by_cases hb : N ≤ count
    · rw [searchLoop_break env mp N eE eU count _ hb] at hr
      simp at hr
    · rw [searchLoop, if_neg hb] at hr
      cases he : (extractStep env mp eE eU c).result with
      | none =>
        rw [he] at hr
        dsimp only at hr
        exact ih count r hr
      | some r0 =>
        rw [he] at hr
        dsimp only at hr
        simp only [List.mem_cons] at hr
        rcases hr with h | h
        · subst h; exact hP c r he
        · exact ih (count + 1) r h

/-! ## Helper lemmas about one extraction step -/

theorem extractStep_none_of_no_title (env : Env) (mp : Option ℚ) (eE eU : ℚ)
    (c : Candidate) (h : titleChain c = none) :
    extractStep env mp eE eU c = ⟨none, [], 0⟩ := by
  unfold extractStep
  rw [h]

theorem extractStep_none_of_no_price_tag (env : Env) (mp : Option ℚ) (eE eU : ℚ)
    (c : Candidate) (h : priceChain c = none) :
    extractStep env mp eE eU c = ⟨none, [], 0⟩ := by
  unfold extractStep
  cases ht : titleChain c with
  | none => rfl
  | some t =>
    dsimp only
    rw [h]

theorem extractStep_none_of_unparsed (env : Env) (mp : Option ℚ) (eE eU : ℚ)
    (c : Candidate) (h : parsedPrice c = none) :
    (extractStep env mp eE eU c).result = none ∧
      (extractStep env mp eE eU c).fetches = 0 := by
  unfold parsedPrice at h
  unfold extractStep
  cases ht : titleChain c with
  | none => exact ⟨rfl, rfl⟩
  | some t =>
    dsimp only
    cases hs : priceChain c with
    | none => exact ⟨rfl, rfl⟩
    | some s =>
      dsimp only
      rw [hs] at h
      dsimp only at h
      unfold parsePriceText at h
      cases hr : firstNumRun (stripYenComma s).data with
      | none => exact ⟨rfl, rfl⟩
      | some run =>
        dsimp only
        rw [hr] at h
        dsimp only at h
        rw [h]
        exact ⟨rfl, rfl⟩

theorem extractStep_none_of_no_href (env : Env) (mp : Option ℚ) (eE eU : ℚ)
    (c : Candidate) (h : c.aHref = none) :
    (extractStep env mp eE eU c).result = none := by
  unfold extractStep
  cases ht : titleChain c with
  | none => rfl
  | some t =>
    dsimp only
    cases hs : priceChain c with
    | none => rfl
    | some s =>
      dsimp only
      cases hr : firstNumRun (stripYenComma s).data with
      | none => rfl
      | some run =>
        dsimp only
        cases hf : pyFloatOfRun run with
        | none => rfl
        | some p =>
          dsimp only
          cases hover : priceOverCeiling mp p
          · rw [if_neg (by simp), h]
          · rw [if_pos rfl]

theorem extractStep_none_of_over (env : Env) (mp : Option ℚ) (eE eU : ℚ)
    (c : Candidate) (p : ℚ) (hp : parsedPrice c = some p)
    (hover : priceOverCeiling mp p = true) :
    (extractStep env mp eE eU c).result = none ∧
      (extractStep env mp eE eU c).fetches = 0 := by
  unfold parsedPrice at hp
  cases hs : priceChain c with
  | none => rw [hs] at hp; exact absurd hp (by simp)
  | some s =>
    rw [hs] at hp
    dsimp only at hp
    unfold parsePriceText at hp
    cases hr : firstNumRun (stripYenComma s).data with
    | none => rw [hr] at hp; exact absurd hp (by simp)
    | some run =>
      rw [hr] at hp
      dsimp only at hp
      unfold extractStep
      cases ht : titleChain c with
      | none => exact ⟨rfl, rfl⟩
      | some t =>
        dsimp only
        rw [hs]
        dsimp only
        rw [hr]
        dsimp only
        rw [hp]
        dsimp only
        rw [if_pos hover]
        exact ⟨rfl, rfl⟩

theorem extractStep_success (env : Env) (mp : Option ℚ) (eE eU : ℚ) (c : Candidate)
    (t s : String) (p : ℚ) (href : String)
    (ht : titleChain c = some t) (hs : priceChain c = some s)
    (hp : parsePriceText s = some p) (hf : priceOverCeiling mp p = false)
    (hh : c.aHref = some href) :
    extractStep env mp eE eU c =
      ⟨some ⟨t, p, round2 (p * eE), round2 (p * eU), resolveLink href BASE_URL,
          (match c.imgSrc with
            | some (some src) => some (resolveLink src BASE_URL)
            | _ => none),
          (match env.fetchProduct (resolveLink href BASE_URL) with
            | none => []
            | some page => findSpreadsheetLinks page)⟩,
        (match env.fetchProduct (resolveLink href BASE_URL) with
          | none => [Msg.productFetchWarning]
          | some _ => []),
        1⟩ := by
  unfold parsePriceText at hp
  cases hr : firstNumRun (stripYenComma s).data with
  | none => rw [hr] at hp; exact absurd hp (by simp)
  | some run =>
    rw [hr] at hp
    dsimp only at hp
    unfold extractStep
    rw [ht]
    dsimp only
    rw [hs]
    dsimp only
    rw [hr]
    dsimp only
    rw [hp]
    dsimp only
    rw [if_neg (by simp [hf]), hh]
    dsimp only
    cases hq : env.fetchProduct (resolveLink href BASE_URL) with
    | none => rfl
    | some page => rfl

theorem extractStep_some_spec (env : Env) (mp : Option ℚ) (eE eU : ℚ)
    (c : Candidate) (r : Record)
    (h : (extractStep env mp eE eU c).result = some r) :
    priceOverCeiling mp r.priceCny = false ∧
      r.priceEur = round2 (r.priceCny * eE) ∧
      r.priceUsd = round2 (r.priceCny * eU) := by
  unfold extractStep at h
  cases ht : titleChain c with
  | none => rw [ht] at h; exact absurd h (by simp)
  | some t =>
    rw [ht] at h
    dsimp only at h
    cases hs : priceChain c with
    | none => rw [hs] at h; exact absurd h (by simp)
    | some s =>
      rw [hs] at h
      dsimp only at h
      cases hr : firstNumRun (stripYenComma s).data with
      | none => rw [hr] at h; exact absurd h (by simp)
      | some run =>
        rw [hr] at h
        dsimp only at h
        cases hf : pyFloatOfRun run with
        | none => rw [hf] at h; exact absurd h (by simp)
        | some p =>
          rw [hf] at h
          dsimp only at h
          cases hover : priceOverCeiling mp p with
          | true => rw [if_pos hover] at h; exact absurd h (by simp)
          | false =>
            rw [if_neg (by simp [hover])] at h
            cases hh : c.aHref with
            | none => rw [hh] at h; exact absurd h (by simp)
            | some href =>
              rw [hh] at h
              dsimp only at h
              cases hq : env.fetchProduct (resolveLink href BASE_URL) with
              | none =>
                rw [hq] at h
                dsimp only at h
                cases h
                exact ⟨hover, rfl, rfl⟩
              | some page =>
                rw [hq] at h
                dsimp only at h
                cases h
                exact ⟨hover, rfl, rfl⟩

example : parsePriceText "¥1,234.56" = some (Rat.divInt 123456 100) := by decide
example : parsePriceText "N/A" = none := by decide
example : parsePriceText "" = none := by decide
example : resolveLink "/p/123" "https://example.com" = "https://example.com/p/123" := by
  decide
example : round2 (Rat.divInt 123456 100 * Rat.divInt 13 100) = Rat.divInt 16049 100 := by
  decide


/-! ## Claim theorems -/

/-- C1, counterexample: the code has no sentinel value.  Parsing "N/A"
(or "") yields no number at all — `parsePriceText` returns `none` — and
a concrete candidate whose price text is "N/A" is excluded from the
results instead of being kept with a sentinel price. -/
theorem c1_counterexample :
    parsePriceText "N/A" = none ∧ parsePriceText "" = none ∧
      (extractStep envW none 0 0 candNA).result = none :=
  ⟨by decide, by decide, by decide⟩

/-- C1, amended: the price parser strips the currency symbol `¥` and the
group separator `,`, takes the first contiguous digit-or-dot substring
and converts it ("¥1,234.56" parses to 1234.56); but when no numeric
substring is found (e.g. "N/A" or "") there is no sentinel: the parse
yields nothing and the pipeline rejects the candidate (no record and no
auxiliary fetch). -/
theorem c1_parser_amended (env : Env) (mp : Option ℚ) (eE eU : ℚ) (c : Candidate) :
    parsePriceText "¥1,234.56" = some (Rat.divInt 123456 100) ∧
      parsePriceText "N/A" = none ∧ parsePriceText "" = none ∧
      (parsedPrice c = none →
        (extractStep env mp eE eU c).result = none ∧
          (extractStep env mp eE eU c).fetches = 0) :=
  ⟨by decide, by decide, by decide, extractStep_none_of_unparsed env mp eE eU c⟩

/-- C1, witness: the amended claim applied to the concrete candidate whose
price text is "N/A". -/
theorem c1_witness :
    (extractStep envW none 0 0 candNA).result = none ∧
      (extractStep envW none 0 0 candNA).fetches = 0 :=
  (c1_parser_amended envW none 0 0 candNA).2.2.2 (by decide)

/-- C2, counterexample: a failed listing fetch (`envFail`) and a
successful fetch that matches zero listings (`envEmpty`) both make
`search_cnfans` return the empty list: the value the caller receives is
identical in the two cases, so the result does not report a listing-fetch
failure distinctly from an empty result set. -/
theorem c2_counterexample :
    (searchCnfans envFail qW).records = [] ∧
      (searchCnfans envEmpty qW).records = [] ∧
      (searchCnfans envFail qW).records = (searchCnfans envEmpty qW).records :=
  ⟨rfl, rfl, rfl⟩

/-- C2, amended: the three outcomes are distinguished only in the
Streamlit messages the pipeline itself displays — `st.error` on a fetch
failure, `st.warning` when no selector matches — while the record list
returned to the caller is empty in both of those cases. -/
theorem c2_amended (env : Env) (q : Query) :
    (env.fetchListing = none → searchCnfans env q = ⟨[], [Msg.networkError]⟩) ∧
      (∀ doc, env.fetchListing = some doc → locateProducts doc = [] →
        searchCnfans env q = ⟨[], [Msg.selectorWarning]⟩) ∧
      Msg.networkError ≠ Msg.selectorWarning := by
  refine ⟨?_, ?_, by decide⟩
  · intro h
    unfold searchCnfans
    rw [h]
  · intro doc hdoc hloc
    unfold searchCnfans
    rw [hdoc]
    dsimp only
    rw [hloc]
    rfl

/-- C2, witness: the amended claim applied to the two concrete
environments. -/
theorem c2_witness : searchCnfans envFail qW = ⟨[], [Msg.networkError]⟩ :=
  (c2_amended envFail qW).1 rfl

/-- C3: for a non-empty keyword and cap `maxResults ≥ 1`, the pipeline
returns at most `maxResults` records; and the cap short-circuits: as soon
as the accepted records of a candidate prefix reach the cap, appending
further candidates changes nothing — the loop output (records, messages,
number of extracted candidates and number of auxiliary product-page
fetches) is identical, so later candidates trigger no extraction and no
fetch. -/
theorem c3_cap_short_circuit (env : Env) (q : Query)
    (hk : q.keyword ≠ "") (hN : 1 ≤ q.maxResults) :
    (searchCnfans env q).records.length ≤ q.maxResults ∧
      (∀ (eE eU : ℚ) (count : Nat) (cs extra : List Candidate),
        q.maxResults ≤ count +
            (searchLoop env q.maxPrice q.maxResults eE eU count cs).records.length →
        searchLoop env q.maxPrice q.maxResults eE eU count (cs ++ extra) =
          searchLoop env q.maxPrice q.maxResults eE eU count cs) := by
  constructor
  · unfold searchCnfans
    cases hl : env.fetchListing with
    | none => simp
    | some doc =>
      dsimp only
      by_cases hp : (locateProducts doc).isEmpty
      · rw [if_pos hp]
        simp
      · rw [if_neg hp]
        have h := searchLoop_length_le env q.maxPrice q.maxResults
          (effRate env.rates.eur CNY_EUR_FALLBACK)
          (effRate env.rates.usd CNY_USD_FALLBACK) (locateProducts doc) 0
        simpa using h
  · intro eE eU count cs extra h
    exact searchLoop_append_full env q.maxPrice q.maxResults eE eU cs count extra h

/-- C3, witness: the cap applied to the concrete environment (four
candidates, cap 2). -/
theorem c3_witness :
    qW.keyword ≠ "" ∧ 1 ≤ qW.maxResults ∧
      (searchCnfans envW qW).records.length ≤ qW.maxResults :=
  ⟨by decide, by decide, (c3_cap_short_circuit envW qW (by decide) (by decide)).1⟩

/-- C4: with a price ceiling `m` set, every returned record has CNY price
≤ m; the comparison is inclusive — the ceiling test does not fire at
price = m, and a fully extractable candidate priced exactly m is accepted;
and an over-ceiling candidate is dropped without aborting the batch: the
loop's records over the remaining candidates are unchanged. -/
theorem c4_price_ceiling (env : Env) (q : Query) (m : ℚ)
    (hm : q.maxPrice = some m) :
    (∀ r ∈ (searchCnfans env q).records, r.priceCny ≤ m) ∧
      priceOverCeiling (some m) m = false ∧
      (∀ (eE eU : ℚ) (c : Candidate) (t s href : String),
        titleChain c = some t → priceChain c = some s →
        parsePriceText s = some m → c.aHref = some href →
        ((extractStep env (some m) eE eU c).result).isSome = true) ∧
      (∀ (eE eU : ℚ) (count : Nat) (c : Candidate) (cs : List Candidate) (p : ℚ),
        parsedPrice c = some p → m < p →
        (searchLoop env (some m) q.maxResults eE eU count (c :: cs)).records =
          (searchLoop env (some m) q.maxResults eE eU count cs).records) := by
  have hover : priceOverCeiling (some m) m = false := by
    simp [priceOverCeiling]
  refine ⟨?_, hover, ?_, ?_⟩
  · intro r hr
    have hmem : ∀ (cs : List Candidate) (count : Nat) (r0 : Record),
        r0 ∈ (searchLoop env q.maxPrice q.maxResults
          (effRate env.rates.eur CNY_EUR_FALLBACK)
          (effRate env.rates.usd CNY_USD_FALLBACK) count cs).records →
        r0.priceCny ≤ m := by
      apply searchLoop_mem
      intro c r0 hc
      have hspec := (extractStep_some_spec env q.maxPrice _ _ c r0 hc).1
      rw [hm] at hspec
      have : ¬ (m < r0.priceCny) := by
        intro hlt
        rw [priceOverCeiling] at hspec
        simp [hlt] at hspec
      exact le_of_not_lt this
    unfold searchCnfans at hr
    cases hl : env.fetchListing with
    | none => rw [hl] at hr; simp at hr
    | some doc =>
      rw [hl] at hr
      dsimp only at hr
      by_cases hp : (locateProducts doc).isEmpty
      · rw [if_pos hp] at hr; simp at hr
      · rw [if_neg hp] at hr
        exact hmem (locateProducts doc) 0 r hr
  · intro eE eU c t s href ht hs hp hh
    rw [extractStep_success env (some m) eE eU c t s m href ht hs hp hover hh]
    rfl
  · intro eE eU count c cs p hp hlt
    have hov : priceOverCeiling (some m) p = true := by
      simp [priceOverCeiling, hlt]
    exact searchLoop_skip env (some m) q.maxResults eE eU c cs count
      (extractStep_none_of_over env (some m) eE eU c p hp hov).1

/-- C4, witness: the boundary case at the concrete environment — `candW`
is priced exactly at the ceiling 1234.56 and is accepted. -/
theorem c4_witness :
    ((extractStep envW (some (Rat.divInt 123456 100)) 0 0 candW).result).isSome
      = true :=
  (c4_price_ceiling envW qW4 (Rat.divInt 123456 100) rfl).2.2.1 0 0 candW
    "Shirt" "¥1,234.56" "/p/123" (by decide) (by decide) (by decide) (by decide)

/-- C5: when a configured target currency is missing from the rate result
(`None`, as `get_exchange_rates` returns both on a missing key and on
failure) the effective conversion factor is the static fallback — 0.13
for EUR, 0.14 for USD; the effective factor is never zero (a zero live
rate also falls back); and every returned record's converted prices are
computed from exactly these effective factors. -/
theorem c5_rate_fallback (env : Env) (q : Query) :
    (env.rates.eur = none →
      effRate env.rates.eur CNY_EUR_FALLBACK = CNY_EUR_FALLBACK) ∧
      (env.rates.usd = none →
        effRate env.rates.usd CNY_USD_FALLBACK = CNY_USD_FALLBACK) ∧
      effRate env.rates.eur CNY_EUR_FALLBACK ≠ 0 ∧
      effRate env.rates.usd CNY_USD_FALLBACK ≠ 0 ∧
      (∀ r ∈ (searchCnfans env q).records,
        r.priceEur = round2 (r.priceCny * effRate env.rates.eur CNY_EUR_FALLBACK) ∧
        r.priceUsd = round2 (r.priceCny * effRate env.rates.usd CNY_USD_FALLBACK)) := by
  have hnz : ∀ (r : Option ℚ) (fb : ℚ), fb ≠ 0 → effRate r fb ≠ 0 := by
    intro r fb hfb
    cases r with
    | none => simpa [effRate] using hfb
    | some x =>
      by_cases hx : x = 0
      · simpa [effRate, hx] using hfb
      · simpa [effRate, hx] using hx
  refine ⟨?_, ?_, hnz _ _ (by decide), hnz _ _ (by decide), ?_⟩
  · intro h; rw [h]; rfl
  · intro h; rw [h]; rfl
  · intro r hr
    have hmem : ∀ (cs : List Candidate) (count : Nat) (r0 : Record),
        r0 ∈ (searchLoop env q.maxPrice q.maxResults
          (effRate env.rates.eur CNY_EUR_FALLBACK)
          (effRate env.rates.usd CNY_USD_FALLBACK) count cs).records →
        r0.priceEur = round2 (r0.priceCny * effRate env.rates.eur CNY_EUR_FALLBACK) ∧
        r0.priceUsd = round2 (r0.priceCny * effRate env.rates.usd CNY_USD_FALLBACK) := by
      apply searchLoop_mem
      intro c r0 hc
      exact (extractStep_some_spec env q.maxPrice _ _ c r0 hc).2
    unfold searchCnfans at hr
    cases hl : env.fetchListing with
    | none => rw [hl] at hr; simp at hr
    | some doc =>
      rw [hl] at hr
      dsimp only at hr
      by_cases hp : (locateProducts doc).isEmpty
      · rw [if_pos hp] at hr; simp at hr
      · rw [if_neg hp] at hr
        exact hmem (locateProducts doc) 0 r hr

/-- C5, witness: with no live rates at all (`envW`), both effective
factors equal the static fallbacks. -/
theorem c5_witness :
    effRate envW.rates.eur CNY_EUR_FALLBACK = CNY_EUR_FALLBACK ∧
      effRate envW.rates.usd CNY_USD_FALLBACK = CNY_USD_FALLBACK :=
  ⟨(c5_rate_fallback envW qW).1 rfl, (c5_rate_fallback envW qW).2.1 rfl⟩

/-- C6: the card locator tries its four selector strategies in fixed
priority order and returns exactly the element set of the first strategy
with a non-empty match (no merging): a document matching only the second
strategy yields that strategy's elements; and when every strategy is
empty the pipeline returns the empty record list with the selector
warning — not an error. -/
theorem c6_locator_first_match (env : Env) (q : Query) (doc : ListingDoc) :
    (doc.liProductItem ≠ [] → locateProducts doc = doc.liProductItem) ∧
      (doc.liProductItem = [] → doc.divProductListItem ≠ [] →
        locateProducts doc = doc.divProductListItem) ∧
      (doc.liProductItem = [] → doc.divProductListItem = [] →
        doc.divSearchItem ≠ [] → locateProducts doc = doc.divSearchItem) ∧
      (doc.liProductItem = [] → doc.divProductListItem = [] →
        doc.divSearchItem = [] → doc.divItem ≠ [] →
        locateProducts doc = doc.divItem) ∧
      (env.fetchListing = some doc → doc.liProductItem = [] →
        doc.divProductListItem = [] → doc.divSearchItem = [] →
        doc.divItem = [] → searchCnfans env q = ⟨[], [Msg.selectorWarning]⟩) := by
  refine ⟨?_, ?_, ?_, ?_, ?_⟩
  · intro h1
    simp [locateProducts, strategyResults, firstNonEmpty, h1]
  · intro h1 h2
    simp [locateProducts, strategyResults, firstNonEmpty, h1, h2]
  · intro h1 h2 h3
    simp [locateProducts, strategyResults, firstNonEmpty, h1, h2, h3]
  · intro h1 h2 h3 h4
    simp [locateProducts, strategyResults, firstNonEmpty, h1, h2, h3, h4]
  · intro hfetch h1 h2 h3 h4
    unfold searchCnfans
    rw [hfetch]
    dsimp only
    have hloc : locateProducts doc = [] := by
      simp [locateProducts, strategyResults, firstNonEmpty, h1, h2, h3, h4]
    rw [hloc]
    rfl

/-- C6, witness: `docW` matches only the second strategy, and the locator
returns exactly that strategy's candidates. -/
theorem c6_witness : locateProducts docW = docW.divProductListItem :=
  (c6_locator_first_match envW qW docW).2.1 rfl (by decide)

/-- C8: the link resolver never fails — a href starting with the
path-root marker "/" resolves to the base origin prefixed to it, and any
other href (already absolute or relative without root) is returned
unchanged; in particular resolving "/p/123" against
"https://example.com" gives "https://example.com/p/123" and resolving
"https://x.com/p/1" gives it back unchanged. -/
theorem c8_link_resolution (href base : String) :
    (pyStartsWith href "/" = true → resolveLink href base = base ++ href) ∧
      (pyStartsWith href "/" = false → resolveLink href base = href) ∧
      resolveLink "/p/123" "https://example.com" = "https://example.com/p/123" ∧
      resolveLink "https://x.com/p/1" "https://example.com" = "https://x.com/p/1" := by
  refine ⟨?_, ?_, by decide, by decide⟩
  · intro h
    unfold resolveLink
    rw [h]
    rfl
  · intro h
    unfold resolveLink
    rw [h]
    rfl

/-- C8, witness: the root-relative branch applied to the concrete href. -/
theorem c8_witness :
    resolveLink "/p/123" "https://example.com" = "https://example.com" ++ "/p/123" :=
  (c8_link_resolution "/p/123" "https://example.com").1 (by decide)

/-- C9: a candidate missing any mandatory field — title, usable price
text, or link — is excluded (its extraction step yields no record) and
the loop's records over the remaining candidates are unchanged (no
abort); while a missing image (no img tag, or an img without src) never
causes rejection: the candidate still yields a record, with its image
URL unset. -/
theorem c9_mandatory_fields (env : Env) (mp : Option ℚ) (eE eU : ℚ) (N : Nat) :
    (∀ c, titleChain c = none ∨ parsedPrice c = none ∨ c.aHref = none →
      (extractStep env mp eE eU c).result = none ∧
        ∀ (count : Nat) (cs : List Candidate),
          (searchLoop env mp N eE eU count (c :: cs)).records =
            (searchLoop env mp N eE eU count cs).records) ∧
      (∀ c t s p href, titleChain c = some t → priceChain c = some s →
        parsePriceText s = some p → priceOverCeiling mp p = false →
        c.aHref = some href → (c.imgSrc = none ∨ c.imgSrc = some none) →
        ∃ r, (extractStep env mp eE eU c).result = some r ∧ r.imgUrl = none) := by
  constructor
  · intro c hc
    have hnone : (extractStep env mp eE eU c).result = none := by
      rcases hc with h | h | h
      · rw [extractStep_none_of_no_title env mp eE eU c h]
      · exact (extractStep_none_of_unparsed env mp eE eU c h).1
      · exact extractStep_none_of_no_href env mp eE eU c h
    exact ⟨hnone, fun count cs =>
      searchLoop_skip env mp N eE eU c cs count hnone⟩
  · intro c t s p href ht hs hp hf hh himg
    rw [extractStep_success env mp eE eU c t s p href ht hs hp hf hh]
    refine ⟨_, rfl, ?_⟩
    rcases himg with h | h <;> rw [h]

/-- C9, witness: the concrete candidate with no link is excluded, and the
loop over the remaining candidates is unaffected. -/
theorem c9_witness :
    (extractStep envW none 0 0 candNoLink).result = none :=
  ((c9_mandatory_fields envW none 0 0 2).1 candNoLink
    (Or.inr (Or.inr (by decide)))).1


/-! ## Helper lemmas for the spreadsheet-link scanner -/

theorem foldl_pres {α β : Type} (P : β → Prop) (f : β → α → β)
    (hf : ∀ b a, P b → P (f b a)) :
    ∀ (l : List α) (b : β), P b → P (l.foldl f b) := by
  intro l
  induction l with
  | nil => intro b hb; exact hb
  | cons x l ih => intro b hb; exact ih (f b x) (hf b x hb)

theorem foldl_mem_of {α β : Type} (f : β → α → β) (Q : β → Prop)
    (hmono : ∀ b a, Q b → Q (f b a)) (x : α) (hx : ∀ b, Q (f b x)) :
    ∀ (l : List α) (b : β), x ∈ l → Q (l.foldl f b) := by
  intro l
  induction l with
  | nil => intro b hmem; cases hmem
  | cons a l ih =>
    intro b hmem
    rcases List.mem_cons.mp hmem with h | h
    · subst h
      exact foldl_pres Q f hmono l (f b x) (hx b)
    · exact ih (f b a) h

theorem findSpreadsheetLinks_nodup (doc : PageDoc) :
    (findSpreadsheetLinks doc).Nodup := by
  unfold findSpreadsheetLinks
  dsimp only
  refine foldl_pres (fun b : List String => b.Nodup) _
    (fun b a hb => hb.insert) _ _ ?_
  refine foldl_pres (fun b : List String => b.Nodup) _ ?_ _ _ List.nodup_nil
  intro b a hb
  dsimp only
  split
  · exact hb.insert
  · exact hb

theorem findSpreadsheetLinks_no_query (doc : PageDoc) :
    ∀ u ∈ findSpreadsheetLinks doc, ∀ ch ∈ u.data, ch ≠ '?' := by
  have hstrip : ∀ (l : List Char) (ch : Char),
      ch ∈ (String.mk (stripQuery l)).data → ch ≠ '?' := by
    intro l ch hch
    have hch2 : ch ∈ List.takeWhile (fun c => c ≠ '?') l := hch
    have h := List.mem_takeWhile_imp hch2
    simpa using h
  unfold findSpreadsheetLinks
  dsimp only
  refine foldl_pres
    (fun b : List String => ∀ u ∈ b, ∀ ch ∈ u.data, ch ≠ '?') _ ?_ _ _ ?_
  · intro b a hb u hu
    rcases List.mem_insert_iff.mp hu with h | h
    · subst h; exact hstrip a
    · exact hb u h
  · refine foldl_pres
      (fun b : List String => ∀ u ∈ b, ∀ ch ∈ u.data, ch ≠ '?') _ ?_ _ _ ?_
    · intro b a hb u hu
      by_cases hc : containsSub sheetHostPat (lowerList a.data) = true
      · rw [if_pos hc] at hu
        rcases List.mem_insert_iff.mp hu with h | h
        · subst h; exact hstrip a.data
        · exact hb u h
      · rw [if_neg hc] at hu
        exact hb u hu
    · intro u hu; cases hu

theorem anchor_mem_findSpreadsheetLinks (doc : PageDoc) (href : String)
    (hmem : href ∈ doc.anchorHrefs)
    (hc : containsSub sheetHostPat (lowerList href.data) = true) :
    String.mk (stripQuery href.data) ∈ findSpreadsheetLinks doc := by
  unfold findSpreadsheetLinks
  dsimp only
  refine foldl_pres (fun b : List String => String.mk (stripQuery href.data) ∈ b) _
    (fun b a hb => List.mem_insert_of_mem hb) _ _ ?_
  refine foldl_mem_of
    (fun acc h2 =>
      if containsSub sheetHostPat (lowerList h2.data) = true then
        List.insert (String.mk (stripQuery h2.data)) acc
      else acc)
    (fun b : List String => String.mk (stripQuery href.data) ∈ b)
    ?_ href ?_ _ _ hmem
  · intro b a hb
    dsimp only
    split
    · exact List.mem_insert_of_mem hb
    · exact hb
  · intro b
    dsimp only
    rw [if_pos hc]
    exact List.mem_insert_self _ _

theorem text_mem_findSpreadsheetLinks (doc : PageDoc) (m : List Char)
    (hmem : m ∈ findSheetUrls doc.text.data) :
    String.mk (stripQuery m) ∈ findSpreadsheetLinks doc := by
  unfold findSpreadsheetLinks
  dsimp only
  exact foldl_mem_of
    (fun acc m2 => List.insert (String.mk (stripQuery m2)) acc)
    (fun b : List String => String.mk (stripQuery m) ∈ b)
    (fun b a hb => List.mem_insert_of_mem hb) m
    (fun b => List.mem_insert_self _ _) _ _ hmem

/-- C7: the scanner merges its two passes — anchors whose lowercased
href contains the host pattern, and regex matches over the page text —
into one deduplicated, query-stripped collection: every output URL
occurs exactly once and contains no "?", and the stripped form of every
anchor hit and of every text match is present; in particular a URL
found by both passes still occurs exactly once. -/
theorem c7_scanner_dedup (doc : PageDoc) :
    (∀ u ∈ findSpreadsheetLinks doc,
      (findSpreadsheetLinks doc).count u = 1 ∧ ∀ ch ∈ u.data, ch ≠ '?') ∧
      (∀ href ∈ doc.anchorHrefs,
        containsSub sheetHostPat (lowerList href.data) = true →
        String.mk (stripQuery href.data) ∈ findSpreadsheetLinks doc) ∧
      (∀ m ∈ findSheetUrls doc.text.data,
        String.mk (stripQuery m) ∈ findSpreadsheetLinks doc) := by
  refine ⟨?_, ?_, ?_⟩
  · intro u hu
    exact ⟨List.count_eq_one_of_mem (findSpreadsheetLinks_nodup doc) hu,
      findSpreadsheetLinks_no_query doc u hu⟩
  · intro href hmem hc
    exact anchor_mem_findSpreadsheetLinks doc href hmem hc
  · intro m hm
    exact text_mem_findSpreadsheetLinks doc m hm

/-- C7, witness: on the concrete page holding the same spreadsheet URL in
an anchor (with query string) and in the body text, the stripped URL
occurs exactly once in the scanner's output. -/
theorem c7_witness :
    (findSpreadsheetLinks pageW).count
      "https://docs.google.com/spreadsheets/d/abc" = 1 :=
  ((c7_scanner_dedup pageW).1 "https://docs.google.com/spreadsheets/d/abc"
    (by decide)).1


/-! ## Helper lemmas for case-insensitivity of the scanner -/

theorem isPrefixL_self_append (l ts : List Char) : isPrefixL l (l ++ ts) = true := by
  induction l with
  | nil => rfl
  | cons c cs ih => simpa [isPrefixL] using ih

theorem containsSub_nil_pat (l : List Char) : containsSub [] l = true := by
  cases l with
  | nil => rfl
  | cons c cs => rfl

theorem containsSub_middle (pat b : List Char) :
    ∀ (a : List Char), containsSub pat (a ++ pat ++ b) = true := by
  intro a
  induction a with
  | nil =>
    cases hp : pat with
    | nil => simpa using containsSub_nil_pat b
    | cons p ps =>
      subst hp
      rw [List.nil_append]
      show (isPrefixL (p :: ps) ((p :: ps) ++ b) ||
        containsSub (p :: ps) (ps ++ b)) = true
      rw [isPrefixL_self_append]
      rfl
  | cons a0 a ih =>
    show (isPrefixL pat (a0 :: (a ++ pat ++ b)) ||
      containsSub pat (a ++ pat ++ b)) = true
    rw [ih]
    exact Bool.or_true _

theorem lowerChar_sheetStop (c : Char) : sheetStop (lowerChar c) = sheetStop c := by
  unfold lowerChar
  split <;> rfl

theorem sheetStop_eq_of_lowerChar {c d : Char} (h : lowerChar c = lowerChar d) :
    sheetStop c = sheetStop d := by
  rw [← lowerChar_sheetStop c, ← lowerChar_sheetStop d, h]

theorem lowEq_length {r1 r2 : List Char} (h : lowerList r1 = lowerList r2) :
    r1.length = r2.length := by
  have h2 := congrArg List.length h
  simpa [lowerList] using h2

theorem takeWhile_lowEq : ∀ {r1 r2 : List Char},
    lowerList r1 = lowerList r2 →
    lowerList (r1.takeWhile (fun c => !sheetStop c)) =
      lowerList (r2.takeWhile (fun c => !sheetStop c)) := by
  intro r1
  induction r1 with
  | nil =>
    intro r2 h
    cases r2 with
    | nil => rfl
    | cons d ds => simp [lowerList] at h
  | cons c cs ih =>
    intro r2 h
    cases r2 with
    | nil => simp [lowerList] at h
    | cons d ds =>
      simp only [lowerList, List.map_cons, List.cons.injEq] at h
      obtain ⟨h1, h2⟩ := h
      have hstop := sheetStop_eq_of_lowerChar h1
      cases hs : sheetStop d with
      | false =>
        have hc : (!sheetStop c) = true := by rw [hstop, hs]; rfl
        have hd : (!sheetStop d) = true := by rw [hs]; rfl
        rw [@List.takeWhile_cons_of_pos Char (fun c => !sheetStop c) c cs hc,
          @List.takeWhile_cons_of_pos Char (fun c => !sheetStop c) d ds hd]
        simp only [lowerList, List.map_cons, List.cons.injEq]
        exact ⟨h1, ih h2⟩
      | true =>
        have hc : ¬ ((!sheetStop c) = true) := by rw [hstop, hs]; simp
        have hd : ¬ ((!sheetStop d) = true) := by rw [hs]; simp
        rw [@List.takeWhile_cons_of_neg Char (fun c => !sheetStop c) c cs hc,
          @List.takeWhile_cons_of_neg Char (fun c => !sheetStop c) d ds hd]


theorem drop_lowEq {r1 r2 : List Char} (h : lowerList r1 = lowerList r2)
    (n : Nat) : lowerList (r1.drop n) = lowerList (r2.drop n) := by
  simp only [lowerList] at h ⊢
  rw [List.map_drop, List.map_drop, h]

theorem stripPrefixCI_lowEq : ∀ (pat : List Char) {cs ds : List Char},
    lowerList cs = lowerList ds →
    ((stripPrefixCI pat cs = none ∧ stripPrefixCI pat ds = none) ∨
      ∃ pre rest pre2 rest2, stripPrefixCI pat cs = some (pre, rest) ∧
        stripPrefixCI pat ds = some (pre2, rest2) ∧
        lowerList pre = lowerList pre2 ∧ lowerList rest = lowerList rest2) := by
  intro pat
  induction pat with
  | nil =>
    intro cs ds h
    exact Or.inr ⟨[], cs, [], ds, rfl, rfl, rfl, h⟩
  | cons p ps ih =>
    intro cs ds h
    cases cs with
    | nil =>
      cases ds with
      | nil => exact Or.inl ⟨rfl, rfl⟩
      | cons d ds => simp [lowerList] at h
    | cons c cs =>
      cases ds with
      | nil => simp [lowerList] at h
      | cons d ds =>
        simp only [lowerList, List.map_cons, List.cons.injEq] at h
        obtain ⟨h1, h2⟩ := h
        by_cases hc : lowerChar c = p
        · have hd : lowerChar d = p := by rw [← h1]; exact hc
          rcases ih h2 with ⟨e1, e2⟩ | ⟨pre, rest, pre2, rest2, e1, e2, l1, l2⟩
          · left
            constructor
            · rw [stripPrefixCI, if_pos hc, e1]
            · rw [stripPrefixCI, if_pos hd, e2]
          · right
            refine ⟨c :: pre, rest, d :: pre2, rest2, ?_, ?_, ?_, l2⟩
            · rw [stripPrefixCI, if_pos hc, e1]
            · rw [stripPrefixCI, if_pos hd, e2]
            · simp only [lowerList, List.map_cons, List.cons.injEq]
              exact ⟨h1, l1⟩
        · have hd : ¬ lowerChar d = p := by rw [← h1]; exact hc
          left
          constructor
          · rw [stripPrefixCI, if_neg hc]
          · rw [stripPrefixCI, if_neg hd]

theorem extendRun_lowEq {pre pre2 rest rest2 : List Char}
    (hp : lowerList pre = lowerList pre2)
    (hr : lowerList rest = lowerList rest2) :
    ((extendRun pre rest = none ∧ extendRun pre2 rest2 = none) ∨
      ∃ m rem m2 rem2, extendRun pre rest = some (m, rem) ∧
        extendRun pre2 rest2 = some (m2, rem2) ∧
        lowerList m = lowerList m2 ∧ lowerList rem = lowerList rem2) := by
  have ht := takeWhile_lowEq hr
  have hlen : (rest.takeWhile (fun c => !sheetStop c)).length =
      (rest2.takeWhile (fun c => !sheetStop c)).length := lowEq_length ht
  by_cases h0 : rest.takeWhile (fun c => !sheetStop c) = []
  · have h02 : rest2.takeWhile (fun c => !sheetStop c) = [] := by
      rw [h0] at hlen
      exact List.length_eq_zero.mp hlen.symm
    left
    constructor
    · rw [extendRun]; rw [if_pos h0]
    · rw [extendRun]; rw [if_pos h02]
  · have h02 : ¬ rest2.takeWhile (fun c => !sheetStop c) = [] := by
      intro hz
      rw [hz] at hlen
      exact h0 (List.length_eq_zero.mp hlen)
    right
    refine ⟨pre ++ rest.takeWhile (fun c => !sheetStop c),
      rest.drop (rest.takeWhile (fun c => !sheetStop c)).length,
      pre2 ++ rest2.takeWhile (fun c => !sheetStop c),
      rest2.drop (rest2.takeWhile (fun c => !sheetStop c)).length,
      ?_, ?_, ?_, ?_⟩
    · rw [extendRun]; rw [if_neg h0]
    · rw [extendRun]; rw [if_neg h02]
    · simp only [lowerList, List.map_append]
      simp only [lowerList] at hp ht
      rw [hp, ht]
    · rw [hlen]
      exact drop_lowEq hr _

theorem matchSheetAt_lowEq {cs ds : List Char}
    (h : lowerList cs = lowerList ds) :
    ((matchSheetAt cs = none ∧ matchSheetAt ds = none) ∨
      ∃ m rem m2 rem2, matchSheetAt cs = some (m, rem) ∧
        matchSheetAt ds = some (m2, rem2) ∧
        lowerList m = lowerList m2 ∧ lowerList rem = lowerList rem2) := by
  rcases stripPrefixCI_lowEq sheetUrlPatHttps h with ⟨e1, e2⟩ |
    ⟨pre, rest, pre2, rest2, e1, e2, l1, l2⟩
  · rcases stripPrefixCI_lowEq sheetUrlPatHttp h with ⟨f1, f2⟩ |
      ⟨pre, rest, pre2, rest2, f1, f2, l1, l2⟩
    · left
      constructor
      · rw [matchSheetAt, e1, f1]
      · rw [matchSheetAt, e2, f2]
    · rcases extendRun_lowEq l1 l2 with ⟨g1, g2⟩ |
        ⟨m, rem, m2, rem2, g1, g2, k1, k2⟩
      · left
        constructor
        · rw [matchSheetAt, e1, f1]; exact g1
        · rw [matchSheetAt, e2, f2]; exact g2
      · right
        refine ⟨m, rem, m2, rem2, ?_, ?_, k1, k2⟩
        · rw [matchSheetAt, e1, f1]; exact g1
        · rw [matchSheetAt, e2, f2]; exact g2
  · rcases extendRun_lowEq l1 l2 with ⟨g1, g2⟩ |
      ⟨m, rem, m2, rem2, g1, g2, k1, k2⟩
    · left
      constructor
      · rw [matchSheetAt, e1]; exact g1
      · rw [matchSheetAt, e2]; exact g2
    · right
      refine ⟨m, rem, m2, rem2, ?_, ?_, k1, k2⟩
      · rw [matchSheetAt, e1]; exact g1
      · rw [matchSheetAt, e2]; exact g2

theorem findSheetUrlsAux_lowEq : ∀ (fuel : Nat) {cs ds : List Char},
    lowerList cs = lowerList ds →
    List.Forall₂ (fun m m2 => lowerList m = lowerList m2)
      (findSheetUrlsAux fuel cs) (findSheetUrlsAux fuel ds) := by
  intro fuel
  induction fuel with
  | zero =>
    intro cs ds h
    cases cs <;> cases ds <;> exact List.Forall₂.nil
  | succ fuel ih =>
    intro cs ds h
    cases cs with
    | nil =>
      cases ds with
      | nil => exact List.Forall₂.nil
      | cons d ds => simp [lowerList] at h
    | cons c cs =>
      cases ds with
      | nil => simp [lowerList] at h
      | cons d ds =>
        rcases matchSheetAt_lowEq h with ⟨e1, e2⟩ |
          ⟨m, rem, m2, rem2, e1, e2, l1, l2⟩
        · rw [findSheetUrlsAux, e1, findSheetUrlsAux, e2]
          have h2 : lowerList cs = lowerList ds := by
            simp only [lowerList, List.map_cons, List.cons.injEq] at h
            exact h.2
          exact ih h2
        · rw [findSheetUrlsAux, e1, findSheetUrlsAux, e2]
          exact List.Forall₂.cons l1 (ih l2)

theorem findSheetUrls_lowEq {t u : List Char}
    (h : lowerList t = lowerList u) :
    List.Forall₂ (fun m m2 => lowerList m = lowerList m2)
      (findSheetUrls t) (findSheetUrls u) := by
  unfold findSheetUrls
  rw [lowEq_length h]
  exact findSheetUrlsAux_lowEq u.length h

/-- C10: spreadsheet-link discovery is case-insensitive in both passes.
An anchor is accepted whenever its href contains the host pattern in any
letter case (any substring whose lowercasing is the pattern), and its
stripped href joins the output; the text scanner's matches depend only on
the lowercasing of the text: texts equal up to letter case produce
matches equal up to letter case, position by position.  On a concrete
page whose URL appears only in upper case (anchor and body text), the
upper-case URL is found and returned query-stripped. -/
theorem c10_case_insensitive (doc : PageDoc) (href : String) :
    (∀ (a p b : List Char), href ∈ doc.anchorHrefs →
      href.data = a ++ p ++ b → lowerList p = sheetHostPat →
      String.mk (stripQuery href.data) ∈ findSpreadsheetLinks doc) ∧
      (∀ t u : List Char, lowerList t = lowerList u →
        List.Forall₂ (fun m m2 => lowerList m = lowerList m2)
          (findSheetUrls t) (findSheetUrls u)) ∧
      findSpreadsheetLinks pageUpper =
        ["HTTPS://DOCS.GOOGLE.COM/SPREADSHEETS/D/ABC"] := by
  refine ⟨?_, ?_, by decide⟩
  · intro a p b hmem hdata hlow
    apply anchor_mem_findSpreadsheetLinks doc href hmem
    rw [hdata]
    simp only [lowerList, List.map_append]
    simp only [lowerList] at hlow
    rw [hlow]
    exact containsSub_middle sheetHostPat (List.map lowerChar b) (List.map lowerChar a)
  · intro t u h
    exact findSheetUrls_lowEq h

/-- C10, witness: the upper-case anchor href is discovered — its
query-stripped form is in the scanner's output for the concrete
upper-case page. -/
theorem c10_witness :
    String.mk (stripQuery hrefU.data) ∈ findSpreadsheetLinks pageUpper :=
  (c10_case_insensitive pageUpper hrefU).1 "HTTPS://".data
    "DOCS.GOOGLE.COM/SPREADSHEETS".data "/D/ABC?X=1".data
    (by decide) (by decide) (by decide)

end FinderModel
